import Mathlib

/-
Verification of the stat-plugin repository (src/main.ts, src/editor-suggest.ts).

The development shallowly embeds the plugin's data model and operations:
the document store (vault plus metadata cache) consumed by the script
capability surface, the capability operations page / pages / folder / table,
the member-name lists of the capability surface, the autocompletion
suggestion list and the decoration pattern, the debounced refresh scheduler,
and the registry-backed instance lifecycle (run / refresh / bulk refresh /
evict).  Theorems then settle the specified properties against these
definitions.
-/

/-- Modification time, creation time and size of a vault file (the
TFile.stat fields the plugin reads). -/
structure FileStats where
  mtime : Nat
  ctime : Nat
  size : Nat
deriving DecidableEq

/-- A file of the vault (obsidian TFile), restricted to the fields the
plugin reads. -/
structure TFile where
  path : String
  name : String
  basename : String
  extension : String
  stat : FileStats
deriving DecidableEq

/-- An entry of the vault as resolved by getAbstractFileByPath: either a
file (TFile) or a folder (TFolder) holding its path and immediate
children. -/
inductive VaultEntry where
  | file (f : TFile)
  | dir (path : String) (children : List VaultEntry)

/-- Front-matter of a document as the metadata cache exposes it: the list of
declared key/value fields, in declaration order. -/
abbrev Frontmatter := List (String × String)

/-- The vault collaborator: path resolution and markdown-file enumeration
(enumeration order is the store's, not contractually sorted). -/
structure Vault where
  getAbstractFileByPath : String → Option VaultEntry
  getMarkdownFiles : List TFile

/-- The metadata-cache collaborator, keyed by file path; none models both a
missing cache entry and a cache entry without frontmatter. -/
structure MetadataCache where
  getFileCache : String → Option Frontmatter

/-- The host app handle the plugin holds: vault plus metadata cache. -/
structure App where
  vault : Vault
  metadataCache : MetadataCache

/-- The nested file descriptor literal built by sp.page and sp.pages. -/
structure FileDesc where
  path : String
  name : String
  basename : String
  extension : String
  mtime : Nat
  ctime : Nat
  size : Nat
deriving DecidableEq

/-- The record sp.page and sp.pages return for one file: the spread of the
cached front-matter fields together with the nested file descriptor. -/
structure PageRecord where
  frontmatter : Frontmatter
  file : FileDesc
deriving DecidableEq

/-- Builds the nested file descriptor from a TFile, as the object literal in
sp.page and sp.pages does. -/
def fileField (file : TFile) : FileDesc :=
  { path := file.path, name := file.name, basename := file.basename,
    extension := file.extension, mtime := file.stat.mtime,
    ctime := file.stat.ctime, size := file.stat.size }

/-- Builds the page record for one file: front-matter fields of the cache
entry (empty when the cache has none) merged with the file descriptor.  The
same literal is duplicated in sp.page and sp.pages in the source. -/
def pageRecordOf (app : App) (file : TFile) : PageRecord :=
  { frontmatter := (app.metadataCache.getFileCache file.path).getD [],
    file := fileField file }

/-- Embedding of sp.page: resolve the path; a TFile yields the merged
record, anything else (absent, or a folder) yields null. -/
def sp.page (app : App) (path : String) : Option PageRecord :=
  match app.vault.getAbstractFileByPath path with
  | some (VaultEntry.file file) => some (pageRecordOf app file)
  | _ => none

/-- Embedding of sp.pages: filter the markdown files by the folder argument
(JS truthiness: the empty string keeps every file), then map to page
records. -/
def sp.pages (app : App) (folder : String) : List PageRecord :=
  (app.vault.getMarkdownFiles.filter
      (fun file => if folder = "" then true else file.path.startsWith folder)).map
    (pageRecordOf app)

/-- The per-file record sp.folder builds for an immediate file child; the
properties accessor is the deferred front-matter lookup. -/
structure FolderFileRecord where
  name : String
  basename : String
  extension : String
  path : String
  mtime : Nat
  ctime : Nat
  size : Nat
  isMarkdown : Bool
  properties : Option Frontmatter
deriving DecidableEq

/-- Result shape of sp.folder: either the error object literal or the plain
array of file-child records. -/
inductive FolderResult where
  | errObj (files : List FolderFileRecord) (folders : List FolderFileRecord)
      (error : String)
  | arr (records : List FolderFileRecord)
deriving DecidableEq

/-- The instanceof TFile test used by sp.folder's child filter. -/
def VaultEntry.isFile : VaultEntry → Bool
  | VaultEntry.file _ => true
  | VaultEntry.dir _ _ => false

/-- Models the unchecked child-as-TFile cast performed after the instanceof
filter; the dir branch is unreachable behind that filter. -/
def VaultEntry.asFile : VaultEntry → TFile
  | VaultEntry.file f => f
  | VaultEntry.dir p _ =>
      { path := p, name := "", basename := "", extension := "",
        stat := { mtime := 0, ctime := 0, size := 0 } }

/-- Builds the record sp.folder returns for one file child. -/
def folderFileRecordOf (app : App) (f : TFile) : FolderFileRecord :=
  { name := f.name, basename := f.basename, extension := f.extension,
    path := f.path, mtime := f.stat.mtime, ctime := f.stat.ctime,
    size := f.stat.size, isMarkdown := f.extension == "md",
    properties := app.metadataCache.getFileCache f.path }

/-- The template-literal error message of sp.folder. -/
def folderNotFoundMsg (folderPath : String) : String :=
  "Folder \"" ++ folderPath ++ "\" not found or is not a folder"

/-- The guard sp.folder applies to the resolved entry: it proceeds only when
the entry exists and is a TFolder. -/
def isFolderEntry : Option VaultEntry → Bool
  | some (VaultEntry.dir _ _) => true
  | _ => false

/-- Embedding of sp.folder: a resolved folder yields the instanceof-filtered
and record-mapped immediate children; everything else yields the error
object literal. -/
def sp.folder (app : App) (folderPath : String) : FolderResult :=
  match app.vault.getAbstractFileByPath folderPath with
  | some (VaultEntry.dir _ children) =>
      FolderResult.arr ((children.filter VaultEntry.isFile).map
        (fun child => folderFileRecordOf app child.asFile))
  | _ => FolderResult.errObj [] [] (folderNotFoundMsg folderPath)

/-- Every string starts with the empty string, so the JS truthiness special
case for the empty folder argument agrees with the plain prefix filter. -/
theorem startsWith_empty (s : String) : s.startsWith "" = true := by
  simp [String.startsWith, Substring.take, String.toSubstring, Substring.nextn,
        BEq.beq, Substring.beq, Substring.bsize, String.substrEq]
  rw [String.substrEq.loop]
  simp

/-- The folder-not-found message is never the empty string. -/
theorem folderNotFoundMsg_ne_empty (p : String) : folderNotFoundMsg p ≠ "" := by
  intro hs
  have hlen := congrArg String.length hs
  simp [folderNotFoundMsg, String.length_append] at hlen
  exact absurd hlen.1.1 (by decide)

/-- The pages filter is extensionally the plain path-prefix filter. -/
theorem pages_filter_eq (app : App) (folder : String) :
    sp.pages app folder =
      (app.vault.getMarkdownFiles.filter
        (fun file => file.path.startsWith folder)).map (pageRecordOf app) := by
  unfold sp.pages
  congr 1
  apply List.filter_congr
  intro x _
  by_cases h : folder = "" <;> simp [h, startsWith_empty]

/-- C4: pages(p) returns one merged record per document of the store whose
path starts with p, in store enumeration order, and for the empty prefix one
record per document of the store. -/
theorem pages_returns_matching_documents (app : App) (folder : String) :
    sp.pages app folder =
      (app.vault.getMarkdownFiles.filter
        (fun file => file.path.startsWith folder)).map (pageRecordOf app) ∧
    sp.pages app "" = app.vault.getMarkdownFiles.map (pageRecordOf app) := by
  refine ⟨pages_filter_eq app folder, ?_⟩
  rw [pages_filter_eq app ""]
  congr 1
  rw [List.filter_congr (fun a _ => startsWith_empty a.path)]
  exact List.filter_true _

/-- C5: page(p) is null exactly when no file resolves at p, and otherwise
the record merging the file's cached front-matter with the nested file
descriptor holding path, name, basename, extension, modify time, create
time and size. -/
theorem page_null_or_merged_record (app : App) (path : String) :
    (sp.page app path = none ↔
      ∀ file, app.vault.getAbstractFileByPath path ≠ some (VaultEntry.file file)) ∧
    ∀ file, app.vault.getAbstractFileByPath path = some (VaultEntry.file file) →
      ∃ r, sp.page app path = some r ∧
        r.frontmatter = (app.metadataCache.getFileCache file.path).getD [] ∧
        r.file.path = file.path ∧ r.file.name = file.name ∧
        r.file.basename = file.basename ∧ r.file.extension = file.extension ∧
        r.file.mtime = file.stat.mtime ∧ r.file.ctime = file.stat.ctime ∧
        r.file.size = file.stat.size := by
  unfold sp.page
  cases h : app.vault.getAbstractFileByPath path with
  | none => simp [h]
  | some e =>
    cases e with
    | file f =>
      refine ⟨?_, ?_⟩
      · simp [h]
      · intro file hfile
        injection hfile with h1
        injection h1 with h2
        subst h2
        exact ⟨pageRecordOf app f, rfl, rfl, rfl, rfl, rfl, rfl, rfl, rfl, rfl⟩
    | dir q c => simp [h]

/-- C6: when the path does not resolve to a folder, sp.folder returns the
error object with empty files and folders lists and a non-empty message; as
a total function it never raises. -/
theorem folder_missing_error_shape (app : App) (path : String)
    (h : isFolderEntry (app.vault.getAbstractFileByPath path) = false) :
    ∃ s, sp.folder app path = FolderResult.errObj [] [] s ∧ s ≠ "" := by
  refine ⟨folderNotFoundMsg path, ?_, folderNotFoundMsg_ne_empty path⟩
  unfold sp.folder
  cases hx : app.vault.getAbstractFileByPath path with
  | none => rfl
  | some e =>
    cases e with
    | file f => rfl
    | dir q c => rw [hx] at h; exact absurd h (by simp [isFolderEntry])

/-- Maps a vault entry to the folder record of its file, and a subfolder to
nothing: the specification-side view of the instanceof filter and cast. -/
def entryFileRecord (app : App) : VaultEntry → Option FolderFileRecord
  | VaultEntry.file f => some (folderFileRecordOf app f)
  | VaultEntry.dir _ _ => none

/-- The instanceof filter followed by the cast-and-map agrees with the
direct per-entry optional mapping. -/
theorem filter_asFile_eq_filterMap (app : App) (children : List VaultEntry) :
    (children.filter VaultEntry.isFile).map
      (fun child => folderFileRecordOf app child.asFile) =
    children.filterMap (entryFileRecord app) := by
  induction children with
  | nil => rfl
  | cons c cs ih =>
    cases c <;>
      simp_all [VaultEntry.isFile, VaultEntry.asFile, entryFileRecord,
                List.filter_cons, List.filterMap_cons]

/-- File children of an entry list are as many as the filter keeps. -/
theorem filterMap_entryFileRecord_length (app : App)
    (children : List VaultEntry) :
    (children.filterMap (entryFileRecord app)).length =
      (children.filter VaultEntry.isFile).length := by
  rw [← filter_asFile_eq_filterMap]
  exact List.length_map _ _

/-- C10: for a path resolving to a folder, sp.folder returns the plain
array shape holding exactly one record per immediate file child, in child
enumeration order; subfolder children contribute nothing. -/
theorem folder_lists_file_children (app : App) (path q : String)
    (children : List VaultEntry)
    (h : app.vault.getAbstractFileByPath path = some (VaultEntry.dir q children)) :
    ∃ l, sp.folder app path = FolderResult.arr l ∧
      l = children.filterMap (entryFileRecord app) ∧
      l.length = (children.filter VaultEntry.isFile).length := by
  refine ⟨(children.filter VaultEntry.isFile).map
    (fun child => folderFileRecordOf app child.asFile), ?_, ?_, ?_⟩
  · unfold sp.folder
    rw [h]
  · exact filter_asFile_eq_filterMap app children
  · exact List.length_map _ _

/-- Test fixture: a markdown file of the concrete vault. -/
def tFileA : TFile :=
  { path := "notes/a.md", name := "a.md", basename := "a", extension := "md",
    stat := { mtime := 10, ctime := 5, size := 100 } }

/-- Test fixture: a non-markdown file of the concrete vault. -/
def tFileB : TFile :=
  { path := "notes/img.png", name := "img.png", basename := "img",
    extension := "png", stat := { mtime := 7, ctime := 3, size := 900 } }

/-- Test fixture: children of the notes folder, in enumeration order a
file, a subfolder and a second file. -/
def notesChildren : List VaultEntry :=
  [VaultEntry.file tFileA, VaultEntry.dir "notes/sub" [],
   VaultEntry.file tFileB]

/-- Test fixture: a concrete vault with one folder and two files. -/
def testVault : Vault :=
  { getAbstractFileByPath := fun p =>
      if p = "notes/a.md" then some (VaultEntry.file tFileA)
      else if p = "notes/img.png" then some (VaultEntry.file tFileB)
      else if p = "notes" then some (VaultEntry.dir "notes" notesChildren)
      else none,
    getMarkdownFiles := [tFileA] }

/-- Test fixture: a concrete app over the test vault with one cached
front-matter entry. -/
def testApp : App :=
  { vault := testVault,
    metadataCache :=
      { getFileCache := fun p =>
          if p = "notes/a.md" then some [("title", "A")] else none } }

/-- Witness for the page theorem at a concrete file of the test vault. -/
theorem page_null_or_merged_record_witness :
    testApp.vault.getAbstractFileByPath "notes/a.md" =
      some (VaultEntry.file tFileA) ∧
    ∃ r, sp.page testApp "notes/a.md" = some r ∧
      r.frontmatter = (testApp.metadataCache.getFileCache tFileA.path).getD [] ∧
      r.file.path = tFileA.path ∧ r.file.name = tFileA.name ∧
      r.file.basename = tFileA.basename ∧ r.file.extension = tFileA.extension ∧
      r.file.mtime = tFileA.stat.mtime ∧ r.file.ctime = tFileA.stat.ctime ∧
      r.file.size = tFileA.stat.size :=
  ⟨rfl, (page_null_or_merged_record testApp "notes/a.md").2 tFileA rfl⟩

/-- Witness for the folder error-shape theorem at a concrete missing path. -/
theorem folder_missing_error_shape_witness :
    isFolderEntry (testApp.vault.getAbstractFileByPath "nope") = false ∧
    ∃ s, sp.folder testApp "nope" = FolderResult.errObj [] [] s ∧ s ≠ "" :=
  ⟨rfl, folder_missing_error_shape testApp "nope" rfl⟩

/-- Witness for the folder file-children theorem at the concrete folder of
the test vault, whose subfolder child is omitted. -/
theorem folder_lists_file_children_witness :
    testApp.vault.getAbstractFileByPath "notes" =
      some (VaultEntry.dir "notes" notesChildren) ∧
    ∃ l, sp.folder testApp "notes" = FolderResult.arr l ∧
      l = notesChildren.filterMap (entryFileRecord testApp) ∧
      l.length = (notesChildren.filter VaultEntry.isFile).length :=
  ⟨rfl, folder_lists_file_children testApp "notes" "notes" notesChildren rfl⟩

/-- A rendered DOM element: tag, text content, inline style entries and
child elements, as the output helpers build them. -/
inductive DomNode where
  | el (tag : String) (text : String) (style : List (String × String))
      (children : List DomNode)

/-- A table cell value as scripts pass it: a string, a number, or a
pre-built element (numbers are embedded as integers; only their rendered
text matters here). -/
inductive Cell where
  | str (s : String)
  | num (n : Int)
  | elem (e : DomNode)

/-- The header-row loop of sp.table: one th element appended per header. -/
def buildHeaderCells (headers : List String) : List DomNode :=
  headers.foldl (fun acc header => acc ++ [DomNode.el "th" header [] []]) []

/-- The cell branch of sp.table: a string or number becomes the cell's
text, anything else is appended to the cell as a pre-built element. -/
def buildCell : Cell → DomNode
  | Cell.str s => DomNode.el "td" s [] []
  | Cell.num n => DomNode.el "td" (toString n) [] []
  | Cell.elem e => DomNode.el "td" "" [] [e]

/-- The data-row loops of sp.table: one tr appended per row, one td
appended per cell. -/
def buildBodyRows (rows : List (List Cell)) : List DomNode :=
  rows.foldl (fun acc row =>
    acc ++ [DomNode.el "tr" "" []
      (row.foldl (fun cs cell => cs ++ [buildCell cell]) [])]) []

/-- Embedding of sp.table: the table element holding a thead with the one
header row and a tbody with the data rows. -/
def sp.table (headers : List String) (rows : List (List Cell)) : DomNode :=
  DomNode.el "table" "" []
    [DomNode.el "thead" "" []
      [DomNode.el "tr" "" [] (buildHeaderCells headers)],
     DomNode.el "tbody" "" [] (buildBodyRows rows)]

/-- An appending fold over a list is the map of its element function. -/
theorem foldl_push_eq_map {α β : Type} (f : α → β) (l : List α)
    (acc : List β) :
    l.foldl (fun a x => a ++ [f x]) acc = acc ++ l.map f := by
  induction l generalizing acc with
  | nil => simp
  | cons x xs ih => simp [ih]

/-- The header loop produces exactly the map over the headers. -/
theorem buildHeaderCells_eq_map (headers : List String) :
    buildHeaderCells headers =
      headers.map (fun header => DomNode.el "th" header [] []) := by
  unfold buildHeaderCells
  rw [foldl_push_eq_map]
  rfl

/-- The cell loop of one row produces exactly the map over its cells. -/
theorem buildRowCells_eq_map (row : List Cell) :
    row.foldl (fun cs cell => cs ++ [buildCell cell]) [] =
      row.map buildCell := by
  rw [foldl_push_eq_map]
  rfl

/-- The row loop produces exactly the map over the rows. -/
theorem buildBodyRows_eq_map (rows : List (List Cell)) :
    buildBodyRows rows =
      rows.map (fun row => DomNode.el "tr" "" [] (row.map buildCell)) := by
  unfold buildBodyRows
  simp only [buildRowCells_eq_map]
  rw [foldl_push_eq_map]
  rfl

/-- C8: sp.table yields a table whose header section is exactly one row
with one header cell per header in order, and whose body has one row per
data row in order with one cell per entry in column order; a string or
number entry becomes the cell's text and any other entry is appended to
its cell as a pre-built element. -/
theorem table_structure (headers : List String) (rows : List (List Cell)) :
    sp.table headers rows =
      DomNode.el "table" "" []
        [DomNode.el "thead" "" []
          [DomNode.el "tr" "" []
            (headers.map (fun header => DomNode.el "th" header [] []))],
         DomNode.el "tbody" "" []
           (rows.map (fun row => DomNode.el "tr" "" [] (row.map buildCell)))] ∧
    (buildHeaderCells headers).length = headers.length ∧
    (buildBodyRows rows).length = rows.length ∧
    rows.map (fun row => (row.map buildCell).length) = rows.map List.length ∧
    (∀ s, buildCell (Cell.str s) = DomNode.el "td" s [] []) ∧
    (∀ n, buildCell (Cell.num n) = DomNode.el "td" (toString n) [] []) ∧
    (∀ e, buildCell (Cell.elem e) = DomNode.el "td" "" [] [e]) := by
  refine ⟨?_, ?_, ?_, ?_, fun s => rfl, fun n => rfl, fun e => rfl⟩
  · unfold sp.table
    rw [buildHeaderCells_eq_map, buildBodyRows_eq_map]
  · rw [buildHeaderCells_eq_map]
    exact List.length_map _ _
  · rw [buildBodyRows_eq_map]
    exact List.length_map _ _
  · simp

/-- Member names of the sandbox capability surface object sp handed to each
script execution, in source declaration order (runCodeBlock). -/
def sandboxMembers : List String :=
  ["page", "pages", "folder", "header", "paragraph", "span", "list",
   "table", "chart", "app", "container", "refresh"]

/-- One autocompletion suggestion: the inserted text and its description. -/
structure StatPluginSuggestion where
  text : String
  description : String

/-- The fixed suggestion list of StatPluginSuggest.getSuggestions, in
source order; the query filter only narrows this list. -/
def getSuggestionsList : List StatPluginSuggestion :=
  [{ text := "pages()",
     description := "Get all pages or pages in a specific folder" },
   { text := "page(path)", description := "Get a specific page by path" },
   { text := "header(level, text)",
     description := "Create a header element" },
   { text := "span(text)", description := "Create a span element" },
   { text := "list(items)",
     description := "Create a list from an array of items" },
   { text := "table(headers, rows)",
     description := "Create a table with headers and data rows" },
   { text := "chart(label, values, labels)",
     description := "Create a chart with the given data" },
   { text := "folder(folderPath)",
     description := "List files and folders in the specified folder" },
   { text := "app", description := "Access the Obsidian API" }]

/-- The member name a suggestion offers: its text up to the call
parenthesis. -/
def suggestionMemberName (s : StatPluginSuggestion) : String :=
  String.mk (s.text.toList.takeWhile (fun c => c ≠ '('))

/-- The member names offered by the suggestion list. -/
def suggestionMembers : List String :=
  getSuggestionsList.map suggestionMemberName

/-- The member-name alternation of the sp decoration regex in
createCodeBlockExtension, in pattern order. -/
def decorationMembers : List String :=
  ["pages", "page", "header", "span", "list", "table", "chart", "folder",
   "refresh"]

/-- C9 counterexample: paragraph is a member of the capability surface but
is neither offered by the suggestion list nor recognized by the decoration
pattern, refuting the claimed three-way agreement of the name sets. -/
theorem capability_names_disagree :
    "paragraph" ∈ sandboxMembers ∧
    "paragraph" ∉ suggestionMembers ∧
    "paragraph" ∉ decorationMembers := by decide

/-- C9 amended: every suggested and every highlighted name is a member of
the capability surface, but the converse fails: the members paragraph,
container and refresh are missing from the suggestion list, and the
members paragraph, app and container are missing from the decoration
pattern. -/
theorem capability_names_subsets :
    suggestionMembers.all (fun n => sandboxMembers.contains n) = true ∧
    decorationMembers.all (fun n => sandboxMembers.contains n) = true ∧
    sandboxMembers.filter (fun n => !(suggestionMembers.contains n)) =
      ["paragraph", "container", "refresh"] ∧
    sandboxMembers.filter (fun n => !(decorationMembers.contains n)) =
      ["paragraph", "app", "container"] := by decide

/-- The quiet interval of the refresh scheduler (debounceInterval, ms). -/
def debounceInterval : Nat := 1000

/-- The six trigger kinds the file watcher registers: vault modify, create
and delete, active-leaf change, layout change, and metadata-cache
resolved. -/
inductive TriggerKind where
  | modify
  | create
  | delete
  | activeLeafChange
  | layoutChange
  | resolved
deriving DecidableEq

/-- The debounced handler of registerFileWatcher: clear the existing
timeout when one is pending, then arm a new one for the quiet interval
from the current instant.  The optional deadline models the single
debounceTimer field, so at most one timer is outstanding by
construction. -/
def debouncedRefresh (now interval : Nat) (debounceTimer : Option Nat) :
    Option Nat :=
  match debounceTimer with
  | some _ => some (now + interval)
  | none => some (now + interval)

/-- Dispatch of the six registered event handlers: every trigger kind
invokes the same debounced handler and none carries payload that changes
its behavior. -/
def onTrigger (k : TriggerKind) (now interval : Nat)
    (debounceTimer : Option Nat) : Option Nat :=
  match k with
  | TriggerKind.modify => debouncedRefresh now interval debounceTimer
  | TriggerKind.create => debouncedRefresh now interval debounceTimer
  | TriggerKind.delete => debouncedRefresh now interval debounceTimer
  | TriggerKind.activeLeafChange => debouncedRefresh now interval debounceTimer
  | TriggerKind.layoutChange => debouncedRefresh now interval debounceTimer
  | TriggerKind.resolved => debouncedRefresh now interval debounceTimer

/-- Event-loop run of the scheduler over a time-ordered trace of trigger
events: a pending timer whose deadline has been reached fires before the
next event is handled (the callback performs one bulk refresh and nulls
the timer), and a timer still pending at the end of the trace fires
uninterrupted.  The returned list holds the instants of the bulk-refresh
invocations, in order. -/
def schedulerFires (interval : Nat) :
    List (Nat × TriggerKind) → Option Nat → List Nat
  | [], none => []
  | [], some d => [d]
  | (t, k) :: es, none =>
      schedulerFires interval es (onTrigger k t interval none)
  | (t, k) :: es, some d =>
      if d ≤ t then
        d :: schedulerFires interval es (onTrigger k t interval none)
      else
        schedulerFires interval es (onTrigger k t interval (some d))

/-- Arrival instant of the last event of a trace. -/
def lastEventTime : List (Nat × TriggerKind) → Nat
  | [] => 0
  | [(t, _)] => t
  | _ :: es => lastEventTime es

/-- A burst: adjacent events are in time order and each arrives strictly
within the quiet interval of its predecessor. -/
def withinQuiet (interval : Nat) : List (Nat × TriggerKind) → Bool
  | [] => true
  | [_] => true
  | (t1, _) :: (t2, k2) :: es =>
      decide (t1 ≤ t2) && decide (t2 < t1 + interval) &&
        withinQuiet interval ((t2, k2) :: es)

/-- Any trigger at any instant leaves exactly one armed timer with the
deadline one quiet interval ahead. -/
theorem onTrigger_arms (k : TriggerKind) (now interval : Nat)
    (debounceTimer : Option Nat) :
    onTrigger k now interval debounceTimer = some (now + interval) := by
  cases k <;> cases debounceTimer <;> rfl

/-- While a burst continues, the pending timer never fires: each event
cancels and re-arms it, and it fires once, one quiet interval after the
burst's last event. -/
theorem schedulerFires_pending (interval : Nat) :
    ∀ (es : List (Nat × TriggerKind)) (t : Nat) (k : TriggerKind),
      withinQuiet interval ((t, k) :: es) = true →
      schedulerFires interval es (some (t + interval)) =
        [lastEventTime ((t, k) :: es) + interval] := by
  intro es
  induction es with
  | nil => intro t k _; rfl
  | cons e es' ih =>
    obtain ⟨t2, k2⟩ := e
    intro t k h
    have hq : (t ≤ t2 ∧ t2 < t + interval) ∧
        withinQuiet interval ((t2, k2) :: es') = true := by
      simpa [withinQuiet, Bool.and_eq_true] using h
    have hlt : ¬ (t + interval ≤ t2) := Nat.not_le.mpr hq.1.2
    show schedulerFires interval ((t2, k2) :: es') (some (t + interval)) = _
    rw [schedulerFires, if_neg hlt, onTrigger_arms]
    have := ih t2 k2 hq.2
    rw [this]
    rfl

/-- C1: starting idle, a burst of one or more trigger events of any of the
six kinds arriving within the quiet interval of each other produces
exactly one bulk-refresh invocation, at the instant one quiet interval
after the last event; every earlier event merely cancels and re-arms the
single pending timer, of which at most one exists at any time. -/
theorem scheduler_coalesces_burst (interval t : Nat) (k : TriggerKind)
    (es : List (Nat × TriggerKind))
    (h : withinQuiet interval ((t, k) :: es) = true) :
    schedulerFires interval ((t, k) :: es) none =
      [lastEventTime ((t, k) :: es) + interval] := by
  rw [schedulerFires, onTrigger_arms]
  exact schedulerFires_pending interval es t k h

/-- Witness: a three-event burst of distinct kinds inside the 1000 ms
quiet interval fires exactly once, at 1900. -/
theorem scheduler_coalesces_burst_witness :
    withinQuiet debounceInterval
      [(0, TriggerKind.modify), (400, TriggerKind.create),
       (900, TriggerKind.resolved)] = true ∧
    schedulerFires debounceInterval
      [(0, TriggerKind.modify), (400, TriggerKind.create),
       (900, TriggerKind.resolved)] none = [1900] :=
  ⟨by decide,
   scheduler_coalesces_burst debounceInterval 0 TriggerKind.modify
     [(400, TriggerKind.create), (900, TriggerKind.resolved)] (by decide)⟩

/-- Outcome of compiling and invoking one script fragment, as the host JS
engine produces it: a success carries the nodes the fragment appended to
its own container, a failure carries the nodes appended before the throw
and the thrown error's message (a compilation error throws before
emitting anything). -/
inductive ExecResult where
  | ok (emitted : List DomNode)
  | thrown (emitted : List DomNode) (msg : String)

/-- The registry record of one mounted code block: its captured source
text and its opaque rendering context; its output element is addressed by
the instance key. -/
structure Instance where
  source : String
  context : String
deriving DecidableEq

/-- State of the plugin: the codeBlockInstances registry in insertion
order, the per-instance output-container contents, the debounce deadline,
and a log of (instance key, source text) pairs recording each script
execution. -/
structure PluginState where
  codeBlockInstances : List (String × Instance)
  dom : String → List DomNode
  debounceTimer : Option Nat
  execLog : List (String × String)

/-- Map.get of the registry: the record stored under the key, if any. -/
def lookupInstance (registry : List (String × Instance))
    (instanceId : String) : Option Instance :=
  match registry with
  | [] => none
  | (k, v) :: rest =>
      if k = instanceId then some v else lookupInstance rest instanceId

/-- Map.set of the registry: overwrite in place or append. -/
def setInstance (registry : List (String × Instance)) (instanceId : String)
    (inst : Instance) : List (String × Instance) :=
  match registry with
  | [] => [(instanceId, inst)]
  | (k, v) :: rest =>
      if k = instanceId then (k, inst) :: rest
      else (k, v) :: setInstance rest instanceId inst

/-- Map.delete of the registry: drop the entry stored under the key. -/
def deleteInstance (registry : List (String × Instance))
    (instanceId : String) : List (String × Instance) :=
  match registry with
  | [] => []
  | (k, v) :: rest =>
      if k = instanceId then rest else (k, v) :: deleteInstance rest instanceId

/-- Replaces the output-container contents of one instance, leaving every
other container alone. -/
def updateDom (dom : String → List DomNode) (instanceId : String)
    (content : List DomNode) : String → List DomNode :=
  fun j => if j = instanceId then content else dom j

/-- The error element the catch branch of runCodeBlock creates: a div of
red text holding the thrown message. -/
def errorDiv (msg : String) : DomNode :=
  DomNode.el "div" ("Error executing code: " ++ msg) [("color", "red")] []

/-- Embedding of runCodeBlock: compile and invoke the fragment against the
capability surface bound to this instance's output container; on success
the fragment's nodes are appended, and on a thrown compilation or runtime
error the nodes emitted before the failure are appended followed by
exactly one error div.  The registry and the debounce timer are untouched
either way, and both branches log the execution attempt. -/
def runCodeBlock (exec : String → ExecResult) (source : String)
    (instanceId : String) (st : PluginState) : PluginState :=
  match exec source with
  | ExecResult.ok emitted =>
      { st with
        dom := updateDom st.dom instanceId (st.dom instanceId ++ emitted),
        execLog := st.execLog ++ [(instanceId, source)] }
  | ExecResult.thrown emitted msg =>
      { st with
        dom := updateDom st.dom instanceId
          (st.dom instanceId ++ emitted ++ [errorDiv msg]),
        execLog := st.execLog ++ [(instanceId, source)] }

/-- Embedding of refreshCodeBlock: look the instance up by key; when it is
absent the refresh returns at once; otherwise the previous output
container is cleared, a fresh one is created and the captured source is
re-run (the transient refresh indicator is cosmetic and not modeled). -/
def refreshCodeBlock (exec : String → ExecResult) (instanceId : String)
    (st : PluginState) : PluginState :=
  match lookupInstance st.codeBlockInstances instanceId with
  | none => st
  | some inst =>
      runCodeBlock exec inst.source instanceId
        { st with dom := updateDom st.dom instanceId [] }

/-- Embedding of refreshAllCodeBlocks: refresh every registered instance
in registry insertion order. -/
def refreshAllCodeBlocks (exec : String → ExecResult) (st : PluginState) :
    PluginState :=
  (st.codeBlockInstances.map Prod.fst).foldl
    (fun s instanceId => refreshCodeBlock exec instanceId s) st

/-- C2: a thrown compilation or runtime error is caught inside
runCodeBlock: the run appends the pre-failure nodes and exactly one red
error div holding the error's message to the instance's own output
container, leaves every other container untouched, leaves the registry
and the debounce timer unchanged, and returns normally instead of
propagating. -/
theorem runCodeBlock_failure_contained (exec : String → ExecResult)
    (source instanceId : String) (st : PluginState) (emitted : List DomNode)
    (msg : String) (h : exec source = ExecResult.thrown emitted msg) :
    (runCodeBlock exec source instanceId st).dom instanceId =
      st.dom instanceId ++ emitted ++ [errorDiv msg] ∧
    (∀ j, j ≠ instanceId →
      (runCodeBlock exec source instanceId st).dom j = st.dom j) ∧
    (runCodeBlock exec source instanceId st).codeBlockInstances =
      st.codeBlockInstances ∧
    (runCodeBlock exec source instanceId st).debounceTimer =
      st.debounceTimer := by
  unfold runCodeBlock
  rw [h]
  refine ⟨by simp [updateDom], ?_, rfl, rfl⟩
  intro j hj
  simp [updateDom, hj]

/-- Test fixture: the execution oracle used by the lifecycle witnesses;
one source text throws, every other one emits a paragraph. -/
def testExec : String → ExecResult :=
  fun source =>
    if source = "throwing" then ExecResult.thrown [] "boom"
    else ExecResult.ok [DomNode.el "p" "hello" [] []]

/-- Test fixture: a plugin state with two mounted instances and empty
output containers. -/
def testState : PluginState :=
  { codeBlockInstances :=
      [("blockA", { source := "throwing", context := "doc.md" }),
       ("blockB", { source := "fine", context := "doc.md" })],
    dom := fun _ => [],
    debounceTimer := none,
    execLog := [] }

/-- Witness: the throwing fragment of the test state leaves exactly one
error div in its own container and touches nothing else. -/
theorem runCodeBlock_failure_contained_witness :
    testExec "throwing" = ExecResult.thrown [] "boom" ∧
    (runCodeBlock testExec "throwing" "blockA" testState).dom "blockA" =
      [errorDiv "boom"] ∧
    (runCodeBlock testExec "throwing" "blockA" testState).dom "blockB" = [] ∧
    (runCodeBlock testExec "throwing" "blockA" testState).codeBlockInstances =
      testState.codeBlockInstances ∧
    (runCodeBlock testExec "throwing" "blockA" testState).debounceTimer =
      none := by
  have h := runCodeBlock_failure_contained testExec "throwing" "blockA"
    testState [] "boom" rfl
  exact ⟨rfl, h.1, h.2.1 "blockB" (by decide), h.2.2.1, h.2.2.2⟩

/-- C3: a single-instance refresh whose key is absent from the registry is
a no-op: the state is returned unchanged, so it performs no DOM mutation,
executes no script and leaves the registry as it was; an instance evicted
between bulk-refresh enumeration and its processing is thereby silently
skipped. -/
theorem refreshCodeBlock_absent_noop (exec : String → ExecResult)
    (instanceId : String) (st : PluginState)
    (h : lookupInstance st.codeBlockInstances instanceId = none) :
    refreshCodeBlock exec instanceId st = st := by
  unfold refreshCodeBlock
  rw [h]

/-- Witness: refreshing an unregistered key of the test state returns the
state unchanged. -/
theorem refreshCodeBlock_absent_noop_witness :
    lookupInstance testState.codeBlockInstances "gone" = none ∧
    refreshCodeBlock testExec "gone" testState = testState :=
  ⟨rfl, refreshCodeBlock_absent_noop testExec "gone" testState rfl⟩

/-- The host-driven operations that can touch the registry once instances
are mounted: a further mount, a single-instance refresh (sp.refresh), the
scheduler's bulk refresh, and the detachment-driven eviction performed by
the MutationObserver. -/
inductive Op where
  | mount (instanceId source context : String)
  | refreshOne (instanceId : String)
  | refreshAll
  | evict (instanceId : String)
deriving DecidableEq

/-- Mount as the statblock processor performs it: store the instance with
its captured source text and context, create its fresh output container
and run the source once. -/
def mountCodeBlock (exec : String → ExecResult)
    (instanceId source context : String) (st : PluginState) : PluginState :=
  runCodeBlock exec source instanceId
    { st with
      codeBlockInstances :=
        setInstance st.codeBlockInstances instanceId
          { source := source, context := context },
      dom := updateDom st.dom instanceId [] }

/-- One lifecycle step. -/
def applyOp (exec : String → ExecResult) : Op → PluginState → PluginState
  | Op.mount instanceId source context, st =>
      mountCodeBlock exec instanceId source context st
  | Op.refreshOne instanceId, st => refreshCodeBlock exec instanceId st
  | Op.refreshAll, st => refreshAllCodeBlocks exec st
  | Op.evict instanceId, st =>
      { st with
        codeBlockInstances := deleteInstance st.codeBlockInstances instanceId }

/-- A run of lifecycle steps, applied in order. -/
def applyOps (exec : String → ExecResult) (ops : List Op)
    (st : PluginState) : PluginState :=
  ops.foldl (fun s op => applyOp exec op s) st

/-- Whether an operation mounts the given key; key reuse is what the
random suffix of the generated instance keys rules out. -/
def mountsKey (instanceId : String) : Op → Bool
  | Op.mount j _ _ => j == instanceId
  | _ => false

/-- A successful registry lookup returns a stored entry. -/
theorem lookupInstance_mem (registry : List (String × Instance))
    (instanceId : String) (v : Instance)
    (h : lookupInstance registry instanceId = some v) :
    (instanceId, v) ∈ registry := by
  induction registry with
  | nil => exact absurd h (by simp [lookupInstance])
  | cons q rest ih =>
    obtain ⟨k, w⟩ := q
    simp only [lookupInstance] at h
    by_cases hk : k = instanceId
    · subst hk
      rw [if_pos rfl] at h
      injection h with hv
      subst hv
      exact List.mem_cons_self _ _
    · rw [if_neg hk] at h
      exact List.mem_cons_of_mem _ (ih h)

/-- In a registry with distinct keys, all entries stored under one key
agree with any one of them. -/
theorem nodup_key_unique (registry : List (String × Instance))
    (instanceId : String) (v : Instance)
    (hnd : (registry.map Prod.fst).Nodup)
    (hv : (instanceId, v) ∈ registry) :
    ∀ p ∈ registry, p.1 = instanceId → p.2 = v := by
  induction registry with
  | nil => intro p hp; exact absurd hp (by simp)
  | cons q rest ih =>
    obtain ⟨k, w⟩ := q
    rw [List.map_cons, List.nodup_cons] at hnd
    intro p hp hpk
    rcases List.mem_cons.mp hv with hv1 | hv2
    · have h1 : instanceId = k := congrArg Prod.fst hv1
      have h2 : v = w := congrArg Prod.snd hv1
      rcases List.mem_cons.mp hp with hp1 | hp2
      · rw [hp1, ← h2]
      · exfalso
        apply hnd.1
        have hmem := List.mem_map_of_mem Prod.fst hp2
        rw [hpk] at hmem
        rw [← h1]
        exact hmem
    · rcases List.mem_cons.mp hp with hp1 | hp2
      · exfalso
        apply hnd.1
        have hmem : instanceId ∈ rest.map Prod.fst :=
          List.mem_map_of_mem Prod.fst hv2
        have hk2 : k = instanceId := by rw [hp1] at hpk; exact hpk
        rw [hk2]
        exact hmem
      · exact ih hnd.2 hv2 p hp2 hpk

/-- Overwrite-or-append only adds the written entry. -/
theorem mem_setInstance (registry : List (String × Instance)) (k : String)
    (v : Instance) (p : String × Instance)
    (hp : p ∈ setInstance registry k v) : p ∈ registry ∨ p = (k, v) := by
  induction registry with
  | nil =>
    simp only [setInstance] at hp
    exact Or.inr (List.mem_singleton.mp hp)
  | cons q rest ih =>
    obtain ⟨k2, w⟩ := q
    simp only [setInstance] at hp
    by_cases hk : k2 = k
    · rw [if_pos hk] at hp
      rcases List.mem_cons.mp hp with h1 | h2
      · right; rw [h1, hk]
      · left; exact List.mem_cons_of_mem _ h2
    · rw [if_neg hk] at hp
      rcases List.mem_cons.mp hp with h1 | h2
      · left; rw [h1]; exact List.mem_cons_self _ _
      · rcases ih h2 with h3 | h4
        · left; exact List.mem_cons_of_mem _ h3
        · right; exact h4

/-- Deletion only removes entries. -/
theorem mem_deleteInstance (registry : List (String × Instance))
    (k : String) (p : String × Instance)
    (hp : p ∈ deleteInstance registry k) : p ∈ registry := by
  induction registry with
  | nil => exact absurd hp (by simp [deleteInstance])
  | cons q rest ih =>
    obtain ⟨k2, w⟩ := q
    simp only [deleteInstance] at hp
    by_cases hk : k2 = k
    · rw [if_pos hk] at hp
      exact List.mem_cons_of_mem _ hp
    · rw [if_neg hk] at hp
      rcases List.mem_cons.mp hp with h1 | h2
      · rw [h1]; exact List.mem_cons_self _ _
      · exact List.mem_cons_of_mem _ (ih h2)

/-- runCodeBlock never touches the registry. -/
theorem runCodeBlock_registry (exec : String → ExecResult)
    (source instanceId : String) (st : PluginState) :
    (runCodeBlock exec source instanceId st).codeBlockInstances =
      st.codeBlockInstances := by
  unfold runCodeBlock
  cases exec source <;> rfl

/-- runCodeBlock logs exactly one execution of its source. -/
theorem runCodeBlock_log (exec : String → ExecResult)
    (source instanceId : String) (st : PluginState) :
    (runCodeBlock exec source instanceId st).execLog =
      st.execLog ++ [(instanceId, source)] := by
  unfold runCodeBlock
  cases exec source <;> rfl

/-- The registry after a mount is the overwrite-or-append of the new
record. -/
theorem mountCodeBlock_registry (exec : String → ExecResult)
    (j s c : String) (st : PluginState) :
    (mountCodeBlock exec j s c st).codeBlockInstances =
      setInstance st.codeBlockInstances j { source := s, context := c } := by
  unfold mountCodeBlock
  rw [runCodeBlock_registry]

/-- A mount logs exactly one execution of the mounted source. -/
theorem mountCodeBlock_log (exec : String → ExecResult)
    (j s c : String) (st : PluginState) :
    (mountCodeBlock exec j s c st).execLog = st.execLog ++ [(j, s)] := by
  unfold mountCodeBlock
  rw [runCodeBlock_log]

/-- The captured-source invariant for one key: every registry entry under
the key still stores the captured source, and every logged execution of
the key either predates the observation or ran the captured source. -/
def SourceInv (instanceId source : String) (base : List (String × String))
    (st : PluginState) : Prop :=
  (∀ p ∈ st.codeBlockInstances, p.1 = instanceId → p.2.source = source) ∧
  (∀ e ∈ st.execLog, e.1 = instanceId → e ∈ base ∨ e.2 = source)

/-- A single-instance refresh of any key preserves the captured-source
invariant: the source it executes is the stored one. -/
theorem sourceInv_refreshCodeBlock (exec : String → ExecResult)
    (j instanceId source : String) (base : List (String × String))
    (st : PluginState) (hI : SourceInv instanceId source base st) :
    SourceInv instanceId source base (refreshCodeBlock exec j st) := by
  unfold refreshCodeBlock
  cases hl : lookupInstance st.codeBlockInstances j with
  | none => exact hI
  | some inst =>
    constructor
    · intro p hp hpk
      rw [runCodeBlock_registry] at hp
      exact hI.1 p hp hpk
    · intro e he hek
      rw [runCodeBlock_log] at he
      rcases List.mem_append.mp he with h1 | h2
      · exact hI.2 e h1 hek
      · have h3 : e = (j, inst.source) := by simpa using h2
        subst h3
        right
        have hj : j = instanceId := hek
        subst hj
        exact hI.1 (j, inst) (lookupInstance_mem _ _ _ hl) rfl

/-- Bulk refresh preserves the captured-source invariant. -/
theorem sourceInv_foldlRefresh (exec : String → ExecResult)
    (instanceId source : String) (base : List (String × String)) :
    ∀ (keys : List String) (st : PluginState),
      SourceInv instanceId source base st →
      SourceInv instanceId source base
        (keys.foldl (fun s j => refreshCodeBlock exec j s) st) := by
  intro keys
  induction keys with
  | nil => intro st hI; exact hI
  | cons j keys ih =>
    intro st hI
    exact ih _ (sourceInv_refreshCodeBlock exec j instanceId source base st hI)

/-- A mount of a different key preserves the captured-source invariant. -/
theorem sourceInv_mount (exec : String → ExecResult)
    (j s c instanceId source : String) (base : List (String × String))
    (st : PluginState) (hj : j ≠ instanceId)
    (hI : SourceInv instanceId source base st) :
    SourceInv instanceId source base (mountCodeBlock exec j s c st) := by
  constructor
  · intro p hp hpk
    rw [mountCodeBlock_registry] at hp
    rcases mem_setInstance _ _ _ _ hp with h1 | h2
    · exact hI.1 p h1 hpk
    · exfalso
      apply hj
      have h4 : p.1 = j := by rw [h2]
      rw [← h4]
      exact hpk
  · intro e he hek
    rw [mountCodeBlock_log] at he
    rcases List.mem_append.mp he with h1 | h2
    · exact hI.2 e h1 hek
    · exfalso
      have h3 : e = (j, s) := by simpa using h2
      have h4 : e.1 = j := by rw [h3]
      exact hj (h4.symm.trans hek)

/-- Any lifecycle step not remounting the key preserves the
captured-source invariant. -/
theorem sourceInv_applyOp (exec : String → ExecResult) (op : Op)
    (instanceId source : String) (base : List (String × String))
    (st : PluginState) (hop : mountsKey instanceId op = false)
    (hI : SourceInv instanceId source base st) :
    SourceInv instanceId source base (applyOp exec op st) := by
  cases op with
  | mount j s c =>
    have hj : j ≠ instanceId := by simpa [mountsKey] using hop
    exact sourceInv_mount exec j s c instanceId source base st hj hI
  | refreshOne j =>
    exact sourceInv_refreshCodeBlock exec j instanceId source base st hI
  | refreshAll =>
    show SourceInv instanceId source base (refreshAllCodeBlocks exec st)
    unfold refreshAllCodeBlocks
    exact sourceInv_foldlRefresh exec instanceId source base _ st hI
  | evict j =>
    constructor
    · intro p hp hpk
      exact hI.1 p (mem_deleteInstance _ _ _ hp) hpk
    · exact hI.2

/-- A run of lifecycle steps never remounting the key preserves the
captured-source invariant. -/
theorem sourceInv_applyOps (exec : String → ExecResult)
    (instanceId source : String) (base : List (String × String)) :
    ∀ (ops : List Op) (st : PluginState),
      (∀ op ∈ ops, mountsKey instanceId op = false) →
      SourceInv instanceId source base st →
      SourceInv instanceId source base (applyOps exec ops st) := by
  intro ops
  induction ops with
  | nil => intro st _ hI; exact hI
  | cons op ops ih =>
    intro st hops hI
    show SourceInv _ _ _ (applyOps exec ops (applyOp exec op st))
    exact ih _ (fun o ho => hops o (List.mem_cons_of_mem _ ho))
      (sourceInv_applyOp exec op instanceId source base st
        (hops op (List.mem_cons_self _ _)) hI)

/-- C7: once an instance is registered with its captured source text, as
long as no later mount reuses its key (generated keys are never reused),
every registry entry under that key keeps the captured source text
unchanged across any run of refreshes, bulk refreshes, evictions and
other mounts, and every execution of that key re-runs exactly the
captured source text, not a re-read of the document. -/
theorem captured_source_immutable (exec : String → ExecResult)
    (ops : List Op) (st : PluginState) (instanceId : String)
    (inst : Instance)
    (hreg : lookupInstance st.codeBlockInstances instanceId = some inst)
    (hnd : (st.codeBlockInstances.map Prod.fst).Nodup)
    (hops : ops.all (fun op => !(mountsKey instanceId op)) = true) :
    (∀ inst2, lookupInstance
        (applyOps exec ops st).codeBlockInstances instanceId = some inst2 →
      inst2.source = inst.source) ∧
    (∀ e ∈ (applyOps exec ops st).execLog, e.1 = instanceId →
      e ∈ st.execLog ∨ e.2 = inst.source) := by
  have hops2 : ∀ op ∈ ops, mountsKey instanceId op = false := by
    intro op ho
    have hb := List.all_eq_true.mp hops op ho
    simpa using hb
  have hI0 : SourceInv instanceId inst.source st.execLog st := by
    constructor
    · intro p hp hpk
      have hq := nodup_key_unique st.codeBlockInstances instanceId inst hnd
        (lookupInstance_mem _ _ _ hreg) p hp hpk
      rw [hq]
    · intro e he _
      exact Or.inl he
  have hI := sourceInv_applyOps exec instanceId inst.source st.execLog ops st
    hops2 hI0
  constructor
  · intro inst2 h2
    exact hI.1 (instanceId, inst2) (lookupInstance_mem _ _ _ h2) rfl
  · exact hI.2

/-- Test fixture: a run of lifecycle operations that never remounts
blockA: its own refresh, a bulk refresh, an eviction of the other block,
a mount of a fresh block, and a final refresh. -/
def opsFixture : List Op :=
  [Op.refreshOne "blockA", Op.refreshAll, Op.evict "blockB",
   Op.mount "blockC" "newsrc" "doc2.md", Op.refreshOne "blockA"]

/-- Witness: across the fixture run, a logged execution of blockA ran the
captured source text. -/
theorem captured_source_immutable_witness :
    lookupInstance testState.codeBlockInstances "blockA" =
      some { source := "throwing", context := "doc.md" } ∧
    (testState.codeBlockInstances.map Prod.fst).Nodup ∧
    opsFixture.all (fun op => !(mountsKey "blockA" op)) = true ∧
    ("blockA", "throwing") ∈ (applyOps testExec opsFixture testState).execLog ∧
    (("blockA", "throwing") ∈ testState.execLog ∨
      ("blockA", "throwing").2 =
        Instance.source { source := "throwing", context := "doc.md" }) := by
  refine ⟨rfl, by decide, by decide, by decide, ?_⟩
  exact (captured_source_immutable testExec opsFixture testState "blockA"
    { source := "throwing", context := "doc.md" } rfl (by decide)
    (by decide)).2 ("blockA", "throwing") (by decide) rfl
